import Mathlib

/-!
Shallow embedding of the ambient noise mixer (`src/app/test.py`).

Modelling conventions:
* Python floats and numpy float arrays are modelled exactly, as rationals
  (`ℚ`) and lists of rationals.  The numerical claims under study are about
  the *structure* of the arithmetic (which clamp, which rounding mode, which
  samples are touched), not about rounding error of binary floating point,
  and every concrete counterexample below uses values that are exactly
  representable in IEEE float32, so the rational model is faithful at those
  points.
* numpy reductions that raise on empty arrays (`np.max` of a zero-size
  array) are modelled with `Option`; Python exceptions crossing a function
  boundary are modelled with `Except PyErr`.
* `print` diagnostics are collected in a `List String`.
* External collaborators (the pygame mixer device, the Tk window) are
  modelled as explicit state, following their documented behaviour, which
  the relevant definitions note where it matters.
-/

namespace AmbientMixer

/-- Python `int()` applied to a float: truncation toward zero. -/
def pyInt (q : ℚ) : ℤ := if q < 0 then ⌈q⌉ else ⌊q⌋

/-- `SAMPLE_RATE = 44100` (src/app/test.py line 9). -/
def SAMPLE_RATE : ℕ := 44100

/-- `BUFFER_SECONDS = 8.0` (src/app/test.py line 10). -/
def BUFFER_SECONDS : ℚ := 8

/-- `np.clip(x, lo, hi)` on one element: `min (max x lo) hi`. -/
def npClip (x lo hi : ℚ) : ℚ := min (max x lo) hi

/-- `generate_white_noise` (src/app/test.py lines 15-17):
`sample_count = int(SAMPLE_RATE * duration_seconds)` followed by
`np.random.normal(0, 1, sample_count)`.  The randomness source is passed in
explicitly as a function from sample index to sample value. -/
def generate_white_noise (randomSource : ℕ → ℚ) (duration_seconds : ℚ) : List ℚ :=
  (List.range (pyInt ((SAMPLE_RATE : ℚ) * duration_seconds)).toNat).map randomSource

/-- One entry of `np.convolve(a, k, mode="full")`:
`full[i] = sum_j k[j] * a[i-j]` (terms with out-of-range indices are 0). -/
def convolveEntry (a k : List ℚ) (i : ℕ) : ℚ :=
  ∑ j ∈ Finset.range k.length,
    (k.getD j 0) * (if j ≤ i then a.getD (i - j) 0 else 0)

/-- `np.convolve(a, k, mode="full")`: length `a.length + k.length - 1`. -/
def convolveFull (a k : List ℚ) : List ℚ :=
  (List.range (a.length + k.length - 1)).map (convolveEntry a k)

/-- `np.convolve(a, k, mode="same")`: the centered slice of the full
convolution, of length `max a.length k.length`. -/
def convolveSame (a k : List ℚ) : List ℚ :=
  ((convolveFull a k).drop ((min a.length k.length - 1) / 2)).take
    (max a.length k.length)

/-- `moving_average` (src/app/test.py lines 20-24): identity for
`window_size <= 1`, otherwise same-mode convolution with a uniform kernel
`np.ones(window_size) / window_size`. -/
def moving_average (signal : List ℚ) (window_size : ℤ) : List ℚ :=
  if window_size ≤ 1 then signal
  else
    convolveSame signal
      (List.replicate window_size.toNat ((1 : ℚ) / (window_size.toNat : ℚ)))

/-- `np.max` of a list; `none` models the `ValueError` numpy raises when
reducing a zero-size array. -/
def npMax : List ℚ → Option ℚ
  | [] => none
  | x :: xs => some (xs.foldl max x)

/-- `normalize` (src/app/test.py lines 38-42): `peak = np.max(np.abs(samples))`;
if `peak == 0` return the input unchanged, else divide every sample by
`peak`.  `none` models the numpy fault on an empty input. -/
def normalize (samples : List ℚ) : Option (List ℚ) :=
  match npMax (samples.map (fun x => |x|)) with
  | none => none
  | some peak => if peak = 0 then some samples else some (samples.map (· / peak))

/-- The `i`-th value of `np.linspace(0.0, 1.0, n)`: `i / (n - 1)` for
`n ≥ 2`; `np.linspace(0.0, 1.0, 1) = [0.0]`. -/
def linVal (n i : ℕ) : ℚ := if n ≤ 1 then 0 else (i : ℚ) / ((n : ℚ) - 1)

/-- `np.linspace(0.0, 1.0, n)`. -/
def linspace01 (n : ℕ) : List ℚ := (List.range n).map (linVal n)

/-- In-place `samples[:len(fs)] *= fs`: the first `fs.length` samples are
multiplied elementwise by `fs`, the rest are untouched. -/
def scaleFirst (xs fs : List ℚ) : List ℚ :=
  List.zipWith (· * ·) xs fs ++ xs.drop fs.length

/-- In-place `samples[-len(fs):] *= fs`: the last `fs.length` samples are
multiplied elementwise by `fs`, the rest are untouched. -/
def scaleLast (xs fs : List ℚ) : List ℚ :=
  xs.take (xs.length - fs.length) ++
    List.zipWith (· * ·) (xs.drop (xs.length - fs.length)) fs

/-- `fade_len = min(int(fade_duration * SAMPLE_RATE), len(samples) // 2)`
(src/app/test.py line 28). -/
def fadeLen (samples : List ℚ) (fade_duration : ℚ) : ℤ :=
  min (pyInt (fade_duration * (SAMPLE_RATE : ℚ))) ((samples.length / 2 : ℕ) : ℤ)

/-- `apply_fade_edges` (src/app/test.py lines 27-35): no-op when
`fade_len <= 0`; otherwise multiply the first `fade_len` samples by
`np.linspace(0.0, 1.0, fade_len)` and the last `fade_len` samples by its
reversal.  (The two slices are applied in sequence, as the in-place numpy
code does.) -/
def apply_fade_edges (samples : List ℚ) (fade_duration : ℚ) : List ℚ :=
  if fadeLen samples fade_duration ≤ 0 then samples
  else
    scaleLast
      (scaleFirst samples (linspace01 (fadeLen samples fade_duration).toNat))
      (linspace01 (fadeLen samples fade_duration).toNat).reverse

/-- The factor by which `apply_fade_edges` scales the sample at index `i`
of a length-`len` signal when the fade window is `n` samples: the rising
ramp on the first `n` samples, the falling ramp on the last `n`, and `1`
in between. -/
def fadeFactor (n len i : ℕ) : ℚ :=
  if i < n then linVal n i
  else if len - n ≤ i then linVal n (len - 1 - i)
  else 1

/-- One sample of `np.clip(samples * 32767, -32768, 32767).astype(np.int16)`
(src/app/test.py line 128): scale, clip, then cast to int16.  The numpy
`astype` cast truncates toward zero (C cast semantics); the preceding clip
keeps the value inside int16 range, so no modular wrap occurs. -/
def int16OfSample (x : ℚ) : ℤ := pyInt (npClip (x * 32767) (-32768) 32767)

/-- The fixed-point encoding applied elementwise to a mono buffer. -/
def encode_int16 (xs : List ℚ) : List ℤ := xs.map int16OfSample

/-- Python exceptions that can cross the boundaries modelled here. -/
inductive PyErr where
  | pygameError (msg : String)
  | tclError (msg : String)
  | keyError (key : String)
  | valueError (msg : String)
deriving DecidableEq

/-- A `pygame.mixer.Sound`: decoded from a file by the external decoder, or
built by `pygame.sndarray.make_sound` from a mono 1-D int16 array, or from a
2-D per-frame-interleaved int16 array. -/
inductive Sound where
  | fileSound (path : String)
  | monoSound (buf : List ℤ)
  | multiSound (frames : List (List ℤ))
deriving DecidableEq

/-- One entry of `SOUND_PROFILES` (src/app/test.py lines 44-53).  Python
profiles are dicts; the `fallback` field is `Option`al because the dict may
lack the key, in which case `profile["fallback"]` raises `KeyError`.  A
present fallback is the buffer the profile's zero-argument generator
returns. -/
structure SoundProfile where
  name : String
  filename : String
  fallback : Option (List ℚ)
deriving DecidableEq

/-- `SOUND_PROFILES` (src/app/test.py lines 44-53).  Every dict in the
source carries exactly the keys `"name"` and `"filename"`; none carries a
`"fallback"` key, hence `fallback := none` throughout. -/
def SOUND_PROFILES : List SoundProfile :=
  [⟨"Birds", "birds.wav", none⟩,
   ⟨"Crickets", "cricket.wav", none⟩,
   ⟨"Fire", "fire.wav", none⟩,
   ⟨"Rainfall", "rain.wav", none⟩,
   ⟨"Singing Bowl", "singingbowl.wav", none⟩,
   ⟨"Ocean Waves", "waves.wav", none⟩,
   ⟨"Wind", "wind.wav", none⟩,
   ⟨"Coffee Shop", "coffeeshop.wav", none⟩]

/-- `AmbientMixerApp._create_sound` (src/app/test.py lines 101-137).

`generatorOutput` is the buffer returned by `generator()`; `initInfo` is
the channel count reported by `pygame.mixer.get_init()` (`none` when the
mixer reports no info, in which case the code assumes 2); `makeSoundOk`
models whether `pygame.sndarray.make_sound` accepts the first (tiled)
array — the `ValueError` the source's `try` catches.  The emergency mono
fallback re-encodes `raw` (the already normalized and faded buffer) and is
taken to succeed, mono being the base layout.

Steps, mirroring the source: `raw = apply_fade_edges(normalize(raw).copy())`
(the `.copy()` is implicit in the functional model); channel count from
`get_init()` with default 2; mono shape for `channels <= 1`, otherwise
`np.tile(raw[:, None], (1, channels))`; then clip/int16-cast.  Tiling
commutes with the elementwise conversion, so the tiled encoding is the
per-sample encoding replicated across channels. -/
def create_sound (generatorOutput : List ℚ) (initInfo : Option ℕ)
    (makeSoundOk : Bool) : Except PyErr (List String × Sound) :=
  match normalize generatorOutput with
  | none => .error (.valueError "zero-size array to reduction operation maximum")
  | some normed =>
    let raw := apply_fade_edges normed (1 / 10)
    let channels : ℕ := match initInfo with | none => 2 | some c => c
    let attempted : Sound :=
      if channels ≤ 1 then .monoSound (encode_int16 raw)
      else .multiSound ((encode_int16 raw).map (List.replicate channels))
    if makeSoundOk then .ok ([], attempted)
    else
      .ok (["[AudioGen] Failed to create sound. Attempting emergency mono fallback."],
           .monoSound (encode_int16 raw))

/-- `AmbientMixerApp._load_sound` (src/app/test.py lines 90-99).

`fileExists` models `file_path.exists()`; `decodeOk` models whether
`pygame.mixer.Sound(path)` decodes without raising `pygame.error`.  The
fallback path evaluates `profile["fallback"]` — `KeyError` when the dict
has no such key — and otherwise runs `_create_sound`.  Printed diagnostics
are returned alongside the result. -/
def load_sound (profile : SoundProfile) (fileExists decodeOk : Bool)
    (initInfo : Option ℕ) (makeSoundOk : Bool) :
    List String × Except PyErr Sound :=
  let fallback : List String × Except PyErr Sound :=
    match profile.fallback with
    | none => ([], .error (.keyError "fallback"))
    | some gen =>
      match create_sound gen initInfo makeSoundOk with
      | .error e => ([], .error e)
      | .ok (ds, snd) => (ds, .ok snd)
  if fileExists then
    if decodeOk then ([], .ok (.fileSound profile.filename))
    else
      (("Unable to load " ++ profile.filename ++ ": falling back to generated audio.")
         :: fallback.1, fallback.2)
  else
    (("Missing audio file for " ++ profile.name ++ ": expected " ++ profile.filename ++ ".")
       :: fallback.1, fallback.2)

/-- The in-process mixer state that `on_volume_change` touches: the per-name
channel gains (`self.channels[name]`, via `Channel.set_volume`) and the
per-name display labels (`self.value_labels[name]`, holding the rendered
percentage string). -/
structure MixerState where
  channels : List (String × ℚ)
  labels : List (String × String)
deriving DecidableEq

/-- `AmbientMixerApp.on_volume_change` (src/app/test.py lines 174-179):
`volume = max(0.0, min(raw_value / 100.0, 1.0))`; if the name is a known
channel, set that channel's gain; if the name has a label, set it to the
f-string rendering of `int(volume * 100)` followed by a percent sign. -/
def on_volume_change (s : MixerState) (name : String) (raw_value : ℚ) : MixerState :=
  let volume := max 0 (min (raw_value / 100) 1)
  { channels :=
      if (s.channels.lookup name).isSome then
        s.channels.map (fun p => if p.1 = name then (p.1, volume) else p)
      else s.channels,
    labels :=
      if (s.labels.lookup name).isSome then
        s.labels.map
          (fun p => if p.1 = name then (p.1, toString (pyInt (volume * 100)) ++ "%") else p)
      else s.labels }

/-- The state `on_close` acts on: whether the pygame mixer is initialized,
the per-name looping flags of the bound channels, and whether the Tk root
window is still alive. -/
structure CloseState where
  mixerReady : Bool
  channels : List (String × Bool)
  windowAlive : Bool
deriving DecidableEq

/-- `pygame.mixer.Channel.stop()`.  Modelled from pygame's documented
behaviour: every Channel method first checks mixer initialization
(`MIXER_INIT_CHECK`) and raises `pygame.error("mixer not initialized")`
when the mixer has been quit; otherwise it halts the channel. -/
def channelStop (s : CloseState) (name : String) : Except PyErr CloseState :=
  if s.mixerReady then
    .ok { s with channels := s.channels.map (fun p => if p.1 = name then (p.1, false) else p) }
  else .error (.pygameError "mixer not initialized")

/-- `pygame.mixer.quit()`: uninitializes the mixer; safe to call in any
state (pygame documents quit as harmless when not initialized). -/
def mixerQuit (s : CloseState) : CloseState := { s with mixerReady := false }

/-- `tk.Tk.destroy()`.  Modelled from tkinter's documented behaviour:
destroying an already-destroyed root raises
`TclError("can't invoke destroy command: application has been destroyed")`. -/
def masterDestroy (s : CloseState) : Except PyErr CloseState :=
  if s.windowAlive then .ok { s with windowAlive := false }
  else .error (.tclError "application has been destroyed")

/-- `AmbientMixerApp.on_close` (src/app/test.py lines 181-185): stop every
channel in `self.channels`, quit the mixer, destroy the window.  Any
exception raised by a step propagates, as in the Python source. -/
def on_close (s : CloseState) : Except PyErr CloseState := do
  let s₁ ← s.channels.foldlM (fun st p => channelStop st p.1) s
  masterDestroy (mixerQuit s₁)

/-! ### Helper lemmas: linspace and fade factors -/

lemma length_linspace01 (n : ℕ) : (linspace01 n).length = n := by
  simp [linspace01]

lemma linspace01_getElem? {n i : ℕ} (h : i < n) :
    (linspace01 n)[i]? = some (linVal n i) := by
  rw [linspace01, List.getElem?_map, List.getElem?_range h, Option.map_some']

lemma linVal_nonneg (n j : ℕ) : 0 ≤ linVal n j := by
  unfold linVal
  split
  · exact le_refl 0
  · rename_i hn
    have h2 : (2 : ℚ) ≤ (n : ℚ) := by exact_mod_cast (by omega : 2 ≤ n)
    exact div_nonneg (by positivity) (by linarith)

lemma linVal_le_one {n j : ℕ} (h : j ≤ n - 1) : linVal n j ≤ 1 := by
  unfold linVal
  split
  · exact zero_le_one
  · rename_i hn
    have h2 : (2 : ℚ) ≤ (n : ℚ) := by exact_mod_cast (by omega : 2 ≤ n)
    rw [div_le_one (by linarith)]
    have hc : (j : ℚ) ≤ ((n - 1 : ℕ) : ℚ) := Nat.cast_le.mpr h
    rw [Nat.cast_sub (by omega)] at hc
    simpa using hc

lemma linVal_zero (n : ℕ) : linVal n 0 = 0 := by
  unfold linVal
  split
  · rfl
  · simp

lemma fadeFactor_nonneg (n len i : ℕ) : 0 ≤ fadeFactor n len i := by
  unfold fadeFactor
  split
  · exact linVal_nonneg _ _
  · split
    · exact linVal_nonneg _ _
    · exact zero_le_one

lemma fadeFactor_le_one (n len i : ℕ) : fadeFactor n len i ≤ 1 := by
  unfold fadeFactor
  split
  · exact linVal_le_one (by omega)
  · split
    · rename_i h1 h2
      exact linVal_le_one (by omega)
    · exact le_refl 1

/-! ### Helper lemmas: in-place slice scaling -/

lemma length_scaleFirst (xs fs : List ℚ) : (scaleFirst xs fs).length = xs.length := by
  simp only [scaleFirst, List.length_append, List.length_zipWith, List.length_drop]
  omega

lemma length_scaleLast (xs fs : List ℚ) : (scaleLast xs fs).length = xs.length := by
  simp only [scaleLast, List.length_append, List.length_zipWith, List.length_drop,
    List.length_take]
  omega

lemma scaleFirst_getElem?_lt {xs fs : List ℚ} {i : ℕ} {x f : ℚ}
    (hx : xs[i]? = some x) (hf : fs[i]? = some f) :
    (scaleFirst xs fs)[i]? = some (x * f) := by
  have hxl : i < xs.length := (List.getElem?_eq_some.mp hx).1
  have hfl : i < fs.length := (List.getElem?_eq_some.mp hf).1
  unfold scaleFirst
  rw [List.getElem?_append, List.length_zipWith]
  rw [if_pos (by omega)]
  rw [List.getElem?_zipWith, hx, hf]

lemma scaleFirst_getElem?_ge {xs fs : List ℚ} {i : ℕ} (h : fs.length ≤ i) :
    (scaleFirst xs fs)[i]? = xs[i]? := by
  unfold scaleFirst
  rw [List.getElem?_append, List.length_zipWith]
  rw [if_neg (by omega)]
  rcases le_or_lt fs.length xs.length with hle | hlt
  · rw [min_eq_right hle, List.getElem?_drop]
    congr 1
    omega
  · rw [List.drop_eq_nil_of_le hlt.le,
      List.getElem?_eq_none (show xs.length ≤ i by omega)]
    simp

lemma scaleLast_getElem?_lt {xs fs : List ℚ} {i : ℕ} (h : i < xs.length - fs.length) :
    (scaleLast xs fs)[i]? = xs[i]? := by
  unfold scaleLast
  rw [List.getElem?_append, List.length_take]
  rw [if_pos (by omega)]
  rw [List.getElem?_take, if_pos h]

lemma scaleLast_getElem?_ge {xs fs : List ℚ} {i j : ℕ} {x f : ℚ}
    (hge : xs.length - fs.length ≤ i)
    (hj : j = i - (xs.length - fs.length))
    (hx : xs[i]? = some x) (hf : fs[j]? = some f) :
    (scaleLast xs fs)[i]? = some (x * f) := by
  have hxl : i < xs.length := (List.getElem?_eq_some.mp hx).1
  subst hj
  unfold scaleLast
  rw [List.getElem?_append, List.length_take]
  rw [if_neg (by omega)]
  have hmin : min (xs.length - fs.length) xs.length = xs.length - fs.length := by omega
  rw [hmin, List.getElem?_zipWith, List.getElem?_drop]
  have harith : xs.length - fs.length + (i - (xs.length - fs.length)) = i := by omega
  rw [harith, hx, hf]

/-! ### Helper lemmas: apply_fade_edges pointwise description -/

lemma length_apply_fade_edges (xs : List ℚ) (fd : ℚ) :
    (apply_fade_edges xs fd).length = xs.length := by
  unfold apply_fade_edges
  split
  · rfl
  · rw [length_scaleLast, length_scaleFirst]

lemma fadeLen_toNat_facts {xs : List ℚ} {fd : ℚ} (h : 1 ≤ fadeLen xs fd) :
    1 ≤ (fadeLen xs fd).toNat ∧ 2 * (fadeLen xs fd).toNat ≤ xs.length := by
  have h2 : fadeLen xs fd ≤ ((xs.length / 2 : ℕ) : ℤ) := by
    unfold fadeLen
    exact min_le_right _ _
  omega

lemma apply_fade_getElem? (xs : List ℚ) (fd : ℚ) (h1 : 1 ≤ fadeLen xs fd) (i : ℕ) :
    (apply_fade_edges xs fd)[i]? =
      (xs[i]?).map (fun x => x * fadeFactor (fadeLen xs fd).toNat xs.length i) := by
  obtain ⟨hn1, h2n⟩ := fadeLen_toNat_facts h1
  set n := (fadeLen xs fd).toNat with hn
  unfold apply_fade_edges
  rw [if_neg (by omega), ← hn]
  by_cases hilen : xs.length ≤ i
  · rw [List.getElem?_eq_none
      (by rw [length_scaleLast, length_scaleFirst]; exact hilen),
      List.getElem?_eq_none hilen]
    rfl
  push_neg at hilen
  have hx : xs[i]? = some xs[i] := List.getElem?_eq_getElem hilen
  by_cases htail : xs.length - n ≤ i
  · have hfo : ((linspace01 n).reverse)[i - (xs.length - n)]? =
        some (linVal n (xs.length - 1 - i)) := by
      have hjlt : i - (xs.length - n) < (linspace01 n).length := by
        rw [length_linspace01]
        omega
      rw [List.getElem?_reverse hjlt, length_linspace01]
      have harith : n - 1 - (i - (xs.length - n)) = xs.length - 1 - i := by omega
      rw [harith]
      exact linspace01_getElem? (by omega)
    have hPx : (scaleFirst xs (linspace01 n))[i]? = some xs[i] := by
      rw [scaleFirst_getElem?_ge (by rw [length_linspace01]; omega)]
      exact hx
    rw [scaleLast_getElem?_ge
      (by rw [List.length_reverse, length_linspace01, length_scaleFirst]; omega)
      (by rw [List.length_reverse, length_linspace01, length_scaleFirst])
      hPx hfo]
    have hff : fadeFactor n xs.length i = linVal n (xs.length - 1 - i) := by
      unfold fadeFactor
      rw [if_neg (by omega), if_pos htail]
    rw [hx, hff]
    rfl
  · push_neg at htail
    have hPi : (scaleLast (scaleFirst xs (linspace01 n)) (linspace01 n).reverse)[i]? =
        (scaleFirst xs (linspace01 n))[i]? := by
      apply scaleLast_getElem?_lt
      rw [length_scaleFirst, List.length_reverse, length_linspace01]
      omega
    rw [hPi]
    by_cases hhead : i < n
    · rw [scaleFirst_getElem?_lt hx (linspace01_getElem? hhead)]
      have hff : fadeFactor n xs.length i = linVal n i := by
        unfold fadeFactor
        rw [if_pos hhead]
      rw [hx, hff]
      rfl
    · push_neg at hhead
      rw [scaleFirst_getElem?_ge (by rw [length_linspace01]; exact hhead)]
      have hff : fadeFactor n xs.length i = 1 := by
        unfold fadeFactor
        rw [if_neg (by omega), if_neg (by omega)]
      rw [hx, hff]
      simp

lemma fadeLen_pos_of_spec {xs : List ℚ} {fd : ℚ}
    (h : 1 ≤ min (fd * (SAMPLE_RATE : ℚ)) ((xs.length / 2 : ℕ) : ℚ)) :
    1 ≤ fadeLen xs fd := by
  rw [le_min_iff] at h
  obtain ⟨hq, hr⟩ := h
  unfold fadeLen
  rw [le_min_iff]
  constructor
  · unfold pyInt
    rw [if_neg (not_lt.mpr (by linarith))]
    exact Int.le_floor.mpr (by exact_mod_cast hq)
  · exact_mod_cast Nat.one_le_cast.mp (by exact_mod_cast hr)

lemma fadeLen_nonpos_of_spec {xs : List ℚ} {fd : ℚ}
    (h : min (fd * (SAMPLE_RATE : ℚ)) ((xs.length / 2 : ℕ) : ℚ) ≤ 0) :
    fadeLen xs fd ≤ 0 := by
  rw [min_le_iff] at h
  unfold fadeLen
  rcases h with hq | hr
  · refine le_trans (min_le_left _ _) ?_
    unfold pyInt
    split
    · exact Int.ceil_le.mpr (by exact_mod_cast hq)
    · refine le_trans (Int.floor_le_floor hq) ?_
      simp
  · refine le_trans (min_le_right _ _) ?_
    have h0 : xs.length / 2 = 0 := Nat.cast_nonpos.mp hr
    rw [h0]
    rfl

/-- C6: `apply_fade_edges` computes
`fadeLength = min(fadeDurationSeconds * sampleRate, len(signal)/2)` and is a
no-op when `fadeLength ≤ 0`; for every signal of length ≥ 2 with
`fadeLength ≥ 1`, the output's first sample is exactly 0, its last sample
is exactly 0, and every faded sample's magnitude is at most the magnitude
of the corresponding un-faded sample. -/
theorem apply_fade_edges_spec (xs : List ℚ) (fd : ℚ) :
    (min (fd * (SAMPLE_RATE : ℚ)) ((xs.length / 2 : ℕ) : ℚ) ≤ 0 →
      apply_fade_edges xs fd = xs) ∧
    (2 ≤ xs.length →
      1 ≤ min (fd * (SAMPLE_RATE : ℚ)) ((xs.length / 2 : ℕ) : ℚ) →
      (apply_fade_edges xs fd).head? = some 0 ∧
      (apply_fade_edges xs fd).getLast? = some 0 ∧
      ∀ i : ℕ, ∀ a b : ℚ, (apply_fade_edges xs fd)[i]? = some a →
        xs[i]? = some b → |a| ≤ |b|) := by
  constructor
  · intro h
    unfold apply_fade_edges
    rw [if_pos (fadeLen_nonpos_of_spec h)]
  · intro hlen hmin
    have hfl : 1 ≤ fadeLen xs fd := fadeLen_pos_of_spec hmin
    obtain ⟨hn1, h2n⟩ := fadeLen_toNat_facts hfl
    refine ⟨?_, ?_, ?_⟩
    · rw [List.head?_eq_getElem?, apply_fade_getElem? xs fd hfl 0,
        List.getElem?_eq_getElem (by omega : 0 < xs.length)]
      have hff : fadeFactor (fadeLen xs fd).toNat xs.length 0 = 0 := by
        unfold fadeFactor
        rw [if_pos (by omega)]
        exact linVal_zero _
      rw [hff]
      simp
    · rw [List.getLast?_eq_getElem?, length_apply_fade_edges,
        apply_fade_getElem? xs fd hfl (xs.length - 1),
        List.getElem?_eq_getElem (by omega : xs.length - 1 < xs.length)]
      have hff : fadeFactor (fadeLen xs fd).toNat xs.length (xs.length - 1) = 0 := by
        unfold fadeFactor
        rw [if_neg (by omega), if_pos (by omega)]
        have harith : xs.length - 1 - (xs.length - 1) = 0 := by omega
        rw [harith]
        exact linVal_zero _
      rw [hff]
      simp
    · intro i a b ha hb
      rw [apply_fade_getElem? xs fd hfl i, hb, Option.map_some'] at ha
      have hab : a = b * fadeFactor (fadeLen xs fd).toNat xs.length i :=
        (Option.some.inj ha).symm
      rw [hab, abs_mul,
        abs_of_nonneg (fadeFactor_nonneg (fadeLen xs fd).toNat xs.length i)]
      exact mul_le_of_le_one_right (abs_nonneg b)
        (fadeFactor_le_one (fadeLen xs fd).toNat xs.length i)

/-- Witness for C6 at concrete inputs: length-1 input with
`fadeLength = 0` is unchanged; on `[1, 2, 3, 4]` with a 0.1 s fade the
first and last output samples are exactly 0, and the sample at index 1 is
not amplified. -/
theorem apply_fade_edges_spec_witness :
    apply_fade_edges [1] (1 / 10) = [1] ∧
    (apply_fade_edges [1, 2, 3, 4] (1 / 10)).head? = some 0 ∧
    (apply_fade_edges [1, 2, 3, 4] (1 / 10)).getLast? = some 0 ∧
    |(2 : ℚ)| ≤ |(2 : ℚ)| := by
  have hmid : (apply_fade_edges [1, 2, 3, 4] (1 / 10))[1]? = some 2 := by
    have h : fadeLen [1, 2, 3, 4] (1 / 10) = 2 := by
      norm_num [fadeLen, pyInt, SAMPLE_RATE]
    rw [apply_fade_edges, h]
    have ht : (2 : ℤ).toNat = 2 := rfl
    rw [ht]
    norm_num [linspace01, linVal, scaleFirst, scaleLast, List.range_succ]
  refine ⟨(apply_fade_edges_spec [1] (1 / 10)).1 (by norm_num [SAMPLE_RATE, min_le_iff]),
    ((apply_fade_edges_spec [1, 2, 3, 4] (1 / 10)).2 (by norm_num)
      (by norm_num [SAMPLE_RATE, le_min_iff])).1,
    ((apply_fade_edges_spec [1, 2, 3, 4] (1 / 10)).2 (by norm_num)
      (by norm_num [SAMPLE_RATE, le_min_iff])).2.1,
    ((apply_fade_edges_spec [1, 2, 3, 4] (1 / 10)).2 (by norm_num)
      (by norm_num [SAMPLE_RATE, le_min_iff])).2.2 1 2 2 hmid (by norm_num)⟩

/-- C10: with an effective fade window of `fadeLength ≥ 1` samples,
`apply_fade_edges` returns every sample at an index in
`[fadeLength, len - fadeLength)` unchanged: only the first and the last
`fadeLength` samples are modified. -/
theorem apply_fade_edges_frame (xs : List ℚ) (fd : ℚ)
    (h1 : 1 ≤ fadeLen xs fd) (i : ℕ)
    (hlo : (fadeLen xs fd).toNat ≤ i)
    (hhi : i < xs.length - (fadeLen xs fd).toNat) :
    (apply_fade_edges xs fd)[i]? = xs[i]? := by
  rw [apply_fade_getElem? xs fd h1 i]
  have hff : fadeFactor (fadeLen xs fd).toNat xs.length i = 1 := by
    unfold fadeFactor
    rw [if_neg (by omega), if_neg (by omega)]
  rw [hff]
  cases xs[i]? <;> simp

/-- Witness for C10: on a 6-sample signal with a 1-sample fade window the
middle sample at index 2 is returned unchanged. -/
theorem apply_fade_edges_frame_witness :
    (apply_fade_edges [1, 2, 3, 4, 5, 6] (1 / 44100))[2]? =
      ([1, 2, 3, 4, 5, 6] : List ℚ)[2]? := by
  have h : fadeLen [1, 2, 3, 4, 5, 6] (1 / 44100) = 1 := by
    norm_num [fadeLen, pyInt, SAMPLE_RATE]
  exact apply_fade_edges_frame [1, 2, 3, 4, 5, 6] (1 / 44100) (by rw [h]) 2
    (by rw [h]; decide) (by rw [h]; decide)

/-- C7: for every signal and every windowSize ≤ 1 (including zero and
negative values of the Python int), `moving_average` returns the input
signal unchanged. -/
theorem moving_average_identity (signal : List ℚ) (window_size : ℤ)
    (h : window_size ≤ 1) : moving_average signal window_size = signal := by
  unfold moving_average
  rw [if_pos h]

/-- Witness for C7 at window size 1 on a concrete signal. -/
theorem moving_average_identity_witness :
    moving_average [3, 1, 4] 1 = [3, 1, 4] :=
  moving_average_identity [3, 1, 4] 1 (by decide)

/-! ### Helper lemmas: foldl-max and npMax -/

lemma foldl_max_spec (xs : List ℚ) : ∀ a : ℚ,
    (a ≤ xs.foldl max a ∧ ∀ y ∈ xs, y ≤ xs.foldl max a) ∧
    (xs.foldl max a = a ∨ xs.foldl max a ∈ xs) := by
  induction xs with
  | nil =>
    intro a
    simp
  | cons x t ih =>
    intro a
    simp only [List.foldl_cons, List.mem_cons]
    obtain ⟨⟨h1, h2⟩, h3⟩ := ih (max a x)
    refine ⟨⟨le_trans (le_max_left a x) h1, ?_⟩, ?_⟩
    · intro y hy
      rcases hy with rfl | hy
      · exact le_trans (le_max_right a y) h1
      · exact h2 y hy
    · rcases h3 with he | hm
      · rw [he]
        rcases max_choice a x with hc | hc
        · exact Or.inl hc
        · exact Or.inr (Or.inl hc)
      · exact Or.inr (Or.inr hm)

lemma npMax_le_mem {xs : List ℚ} {m : ℚ} (h : npMax xs = some m) :
    (∀ y ∈ xs, y ≤ m) ∧ m ∈ xs := by
  cases xs with
  | nil => simp [npMax] at h
  | cons x t =>
    simp only [npMax, Option.some.injEq] at h
    subst h
    obtain ⟨⟨h1, h2⟩, h3⟩ := foldl_max_spec t x
    refine ⟨?_, ?_⟩
    · intro y hy
      rcases List.mem_cons.mp hy with rfl | hy
      · exact h1
      · exact h2 y hy
    · rcases h3 with he | hm
      · rw [he]
        exact List.mem_cons_self x t
      · exact List.mem_cons_of_mem x hm

lemma foldl_max_div {p : ℚ} (hp : 0 < p) (xs : List ℚ) : ∀ a : ℚ,
    (xs.map (· / p)).foldl max (a / p) = xs.foldl max a / p := by
  induction xs with
  | nil =>
    intro a
    rfl
  | cons x t ih =>
    intro a
    simp only [List.map_cons, List.foldl_cons]
    rw [max_div_div_right hp.le a x]
    exact ih (max a x)

lemma npMax_map_div {xs : List ℚ} {m : ℚ} {p : ℚ} (hp : 0 < p)
    (h : npMax xs = some m) : npMax (xs.map (· / p)) = some (m / p) := by
  cases xs with
  | nil => simp [npMax] at h
  | cons x t =>
    simp only [npMax, List.map_cons, Option.some.injEq] at h ⊢
    rw [foldl_max_div hp t x, h]

/-- C5 counterexample: the empty signal is vacuously all-zero, yet
`normalize` does not return it unchanged — the `np.max` reduction inside
faults on a zero-size array, modelled by `none`. -/
theorem normalize_empty_counterexample :
    (∀ x ∈ ([] : List ℚ), x = 0) ∧ normalize ([] : List ℚ) ≠ some [] := by
  constructor
  · intro x hx
    simp at hx
  · simp [normalize, npMax]

/-- C5 (amended): for every signal whose maximum absolute value is a
nonzero `p`, `normalize` divides by `p` and the result's maximum absolute
value is exactly 1; for a nonempty all-zero signal it returns the signal
unchanged with no division fault.  (On the empty signal the `np.max`
reduction itself faults.) -/
theorem normalize_spec (xs : List ℚ) :
    (∀ p : ℚ, npMax (xs.map (fun x => |x|)) = some p → p ≠ 0 →
      normalize xs = some (xs.map (· / p)) ∧
      npMax ((xs.map (· / p)).map (fun x => |x|)) = some 1) ∧
    (xs ≠ [] → (∀ x ∈ xs, x = 0) → normalize xs = some xs) := by
  constructor
  · intro p hp hp0
    have hple : (∀ y ∈ xs.map (fun x => |x|), y ≤ p) ∧ p ∈ xs.map (fun x => |x|) :=
      npMax_le_mem hp
    have hppos : 0 < p := by
      obtain ⟨x, _, hxp⟩ := List.mem_map.mp hple.2
      have : 0 ≤ p := hxp ▸ abs_nonneg x
      exact lt_of_le_of_ne this (Ne.symm hp0)
    constructor
    · unfold normalize
      rw [hp]
      show (if p = 0 then some xs else some (xs.map (· / p))) = some (xs.map (· / p))
      rw [if_neg hp0]
    · have hcomm : (xs.map (· / p)).map (fun x => |x|) =
          (xs.map (fun x => |x|)).map (· / p) := by
        rw [List.map_map, List.map_map]
        refine List.map_congr_left ?_
        intro a _
        simp only [Function.comp_apply]
        rw [abs_div, abs_of_pos hppos]
      rw [hcomm, npMax_map_div hppos hp, div_self hp0]
  · intro hne hzero
    cases hx : npMax (xs.map (fun x => |x|)) with
    | none =>
      cases xs with
      | nil => exact absurd rfl hne
      | cons y t => simp [npMax] at hx
    | some p =>
      have hp0 : p = 0 := by
        obtain ⟨x, hxmem, hxp⟩ := List.mem_map.mp (npMax_le_mem hx).2
        rw [← hxp, hzero x hxmem, abs_zero]
      unfold normalize
      rw [hx]
      show (if p = 0 then some xs else some (xs.map (· / p))) = some xs
      rw [if_pos hp0]

/-- Witness for C5 on `[3, -4]` (peak 4) and on the nonempty all-zero
signal `[0, 0]`. -/
theorem normalize_spec_witness :
    (normalize [3, -4] = some (([3, -4] : List ℚ).map (· / 4)) ∧
      npMax ((([3, -4] : List ℚ).map (· / 4)).map (fun x => |x|)) = some 1) ∧
    normalize [0, 0] = some [0, 0] :=
  ⟨(normalize_spec [3, -4]).1 4
      (by norm_num [npMax, max_def]) (by norm_num),
   (normalize_spec [0, 0]).2 (by simp) (by simp)⟩

/-- C9 counterexample: at `durationSeconds = 3/8` (exactly representable in
binary floating point, as is `44100 * 3/8 = 16537.5`) the generated buffer
has `int`-truncated length 16537, while the claimed `round` formula gives
16538. -/
theorem generate_white_noise_round_counterexample :
    (generate_white_noise (fun _ => 0) (3 / 8)).length = 16537 ∧
    round ((SAMPLE_RATE : ℚ) * (3 / 8)) = 16538 := by
  constructor
  · simp only [generate_white_noise, List.length_map, List.length_range]
    norm_num [pyInt, SAMPLE_RATE]
    decide
  · norm_num [round_eq, SAMPLE_RATE]

/-- C9 (amended): for every `durationSeconds ≥ 0`, `generate_white_noise`
produces a buffer of length `int(sampleRate * durationSeconds)` — floor
(truncation), not round — and `durationSeconds = 0` yields an empty
buffer. -/
theorem generate_white_noise_length (randomSource : ℕ → ℚ) (d : ℚ)
    (hd : 0 ≤ d) :
    (generate_white_noise randomSource d).length =
      (⌊(SAMPLE_RATE : ℚ) * d⌋).toNat ∧
    (d = 0 → generate_white_noise randomSource d = []) := by
  have hnn : ¬ (SAMPLE_RATE : ℚ) * d < 0 := by
    push_neg
    positivity
  constructor
  · simp only [generate_white_noise, List.length_map, List.length_range, pyInt,
      if_neg hnn]
  · intro h
    subst h
    simp [generate_white_noise, pyInt]

/-- Witness for C9 at `durationSeconds = 1/44100` (length 1) and at
`durationSeconds = 0` (empty buffer). -/
theorem generate_white_noise_length_witness :
    (generate_white_noise (fun _ => 0) (1 / 44100)).length =
      (⌊(SAMPLE_RATE : ℚ) * (1 / 44100)⌋).toNat ∧
    generate_white_noise (fun _ => 0) 0 = [] :=
  ⟨(generate_white_noise_length (fun _ => 0) (1 / 44100) (by norm_num)).1,
   (generate_white_noise_length (fun _ => 0) 0 le_rfl).2 rfl⟩

/-! ### Helper lemma: truncation stays inside a clamp interval -/

lemma pyInt_bounds {q : ℚ} {lo hi : ℤ} (h1 : (lo : ℚ) ≤ q) (h2 : q ≤ (hi : ℚ))
    (hlo : lo ≤ 0) (hhi : 0 ≤ hi) : lo ≤ pyInt q ∧ pyInt q ≤ hi := by
  unfold pyInt
  split
  · rename_i hq
    constructor
    · calc lo = ⌈(lo : ℚ)⌉ := (Int.ceil_intCast lo).symm
        _ ≤ ⌈q⌉ := Int.ceil_mono h1
    · refine le_trans ?_ hhi
      rw [Int.ceil_le]
      exact_mod_cast le_of_lt hq
  · rename_i hq
    constructor
    · refine le_trans hlo ?_
      rw [Int.le_floor]
      exact_mod_cast not_lt.mp hq
    · calc ⌊q⌋ ≤ ⌊(hi : ℚ)⌋ := Int.floor_mono h2
        _ = hi := Int.floor_intCast hi

/-- C3 counterexample: at sample value 1/2 (exactly representable in
float32, as is `0.5 * 32767 = 16383.5`) the encoder emits 16383 (clip then
truncating int16 cast), while the claimed `clamp(round(x * 32767), ...)`
formula gives 16384. -/
theorem encode_int16_round_counterexample :
    encode_int16 [(1 : ℚ) / 2] = [16383] ∧
    min (max (round (((1 : ℚ) / 2) * 32767)) (-32768)) 32767 = 16384 := by
  constructor
  · norm_num [encode_int16, int16OfSample, npClip, pyInt, max_def, min_def]
  · norm_num [round_eq, max_def, min_def]

/-- C3 (amended): each encoded sample is the truncation toward zero of
`clip(x * 32767, -32768, 32767)` (the int16 cast truncates instead of
rounding), and consequently every value of the encoded buffer lies in
[-32768, 32767]. -/
theorem encode_int16_spec (xs : List ℚ) :
    (∀ i : ℕ, (encode_int16 xs)[i]? =
      (xs[i]?).map (fun x => pyInt (npClip (x * 32767) (-32768) 32767))) ∧
    ∀ v ∈ encode_int16 xs, -32768 ≤ v ∧ v ≤ 32767 := by
  constructor
  · intro i
    simp only [encode_int16, List.getElem?_map]
    cases xs[i]? with
    | none => rfl
    | some a => rfl
  · intro v hv
    obtain ⟨x, _, rfl⟩ := List.mem_map.mp hv
    unfold int16OfSample
    have hlo : ((-32768 : ℤ) : ℚ) ≤ npClip (x * 32767) (-32768) 32767 := by
      unfold npClip
      push_cast
      exact le_min (le_max_right _ _) (by norm_num)
    have hhi : npClip (x * 32767) (-32768) 32767 ≤ ((32767 : ℤ) : ℚ) := by
      unfold npClip
      push_cast
      exact min_le_right _ _
    exact pyInt_bounds hlo hhi (by norm_num) (by norm_num)

/-- Witness for C3's amended theorem: the encoded buffer of `[1/2]` is
`[16383]`, whose sole value lies inside the int16 range. -/
theorem encode_int16_spec_witness :
    -32768 ≤ (16383 : ℤ) ∧ (16383 : ℤ) ≤ 32767 :=
  (encode_int16_spec [(1 : ℚ) / 2]).2 16383
    (by norm_num [encode_int16, int16OfSample, npClip, pyInt, max_def, min_def])

/-! ### Helper lemma: lookup after a per-key map update -/

lemma lookup_map_update {β : Type} (name : String) (v : β) :
    ∀ xs : List (String × β), (xs.lookup name).isSome →
      (xs.map (fun p => if p.1 = name then (p.1, v) else p)).lookup name = some v := by
  intro xs
  induction xs with
  | nil =>
    intro h
    simp [List.lookup] at h
  | cons p t ih =>
    intro h
    obtain ⟨k, b⟩ := p
    by_cases hk : k = name
    · subst hk
      simp [List.lookup_cons]
    · have hnk : (name == k) = false :=
        beq_eq_false_iff_ne.mpr (fun hh => hk hh.symm)
      simp only [List.map_cons, if_neg hk, List.lookup_cons, hnk] at h ⊢
      exact ih h

/-- C2: `on_volume_change` computes the gain `clamp(rawValue/100, 0, 1)`
(always inside [0, 1]), applies it to the named channel when it exists,
reports the truncated integer percentage of the effective gain on the
channel's label, and leaves the channel table untouched — with no fault —
when the name matches no channel. -/
theorem on_volume_change_spec (s : MixerState) (name : String) (raw_value : ℚ) :
    (0 ≤ max 0 (min (raw_value / 100) 1) ∧ max 0 (min (raw_value / 100) 1) ≤ 1) ∧
    ((s.channels.lookup name).isSome →
      (on_volume_change s name raw_value).channels.lookup name =
        some (max 0 (min (raw_value / 100) 1))) ∧
    (s.channels.lookup name = none →
      (on_volume_change s name raw_value).channels = s.channels) ∧
    ((s.labels.lookup name).isSome →
      (on_volume_change s name raw_value).labels.lookup name =
        some (toString (pyInt (max 0 (min (raw_value / 100) 1) * 100)) ++ "%")) := by
  refine ⟨⟨le_max_left 0 _, max_le zero_le_one (min_le_right _ _)⟩, ?_, ?_, ?_⟩
  · intro h
    simp only [on_volume_change, if_pos h]
    exact lookup_map_update name _ s.channels h
  · intro h
    simp only [on_volume_change]
    rw [if_neg (by rw [h]; simp)]
  · intro h
    simp only [on_volume_change, if_pos h]
    exact lookup_map_update name _ s.labels h

/-- Witness for C2: the spec's own scenarios — `setGain("Wind", 150)`
clamps to gain 1 with reported label "100%", and a volume event for a
nonexistent channel leaves the channel table unchanged. -/
theorem on_volume_change_spec_witness :
    (on_volume_change ⟨[("Wind", 1 / 2)], [("Wind", "50%")]⟩ "Wind" 150).channels.lookup
        "Wind" = some (max 0 (min ((150 : ℚ) / 100) 1)) ∧
    (on_volume_change ⟨[("Wind", 1 / 2)], [("Wind", "50%")]⟩ "Wind" 150).labels.lookup
        "Wind" = some (toString (pyInt (max 0 (min ((150 : ℚ) / 100) 1) * 100)) ++ "%") ∧
    (on_volume_change ⟨[("Fire", 3 / 4)], []⟩ "Nonexistent" 50).channels =
      [("Fire", 3 / 4)] :=
  ⟨(on_volume_change_spec ⟨[("Wind", 1 / 2)], [("Wind", "50%")]⟩ "Wind" 150).2.1 rfl,
   (on_volume_change_spec ⟨[("Wind", 1 / 2)], [("Wind", "50%")]⟩ "Wind" 150).2.2.2 rfl,
   (on_volume_change_spec ⟨[("Fire", 3 / 4)], []⟩ "Nonexistent" 50).2.2.1 rfl⟩

/-! ### Helper lemma: normalize succeeds on nonempty input -/

lemma normalize_cons_isSome (x : ℚ) (t : List ℚ) :
    ∃ ys, normalize (x :: t) = some ys := by
  unfold normalize
  cases hm : npMax ((x :: t).map (fun a => |a|)) with
  | none => simp [npMax, List.map_cons] at hm
  | some p =>
    by_cases hp : p = 0
    · refine ⟨x :: t, ?_⟩
      show (if p = 0 then some (x :: t) else some ((x :: t).map (· / p))) = some (x :: t)
      rw [if_pos hp]
    · refine ⟨(x :: t).map (· / p), ?_⟩
      show (if p = 0 then some (x :: t) else some ((x :: t).map (· / p))) =
        some ((x :: t).map (· / p))
      rw [if_neg hp]

/-- C8: when `make_sound` rejects the first (channel-count-adapted) array,
`_create_sound` does not raise: it emits the fallback diagnostic and
returns a mono sound whose buffer re-encodes exactly the already
normalized and faded buffer — identical to the buffer a clean mono encode
(channel count 1) of the same generator output produces, so shaping (and
in particular the fade) is not applied a second time. -/
theorem create_sound_mono_fallback (gen : List ℚ) (initInfo : Option ℕ)
    (h : gen ≠ []) :
    ∃ normed : List ℚ, normalize gen = some normed ∧
      create_sound gen initInfo false =
        .ok (["[AudioGen] Failed to create sound. Attempting emergency mono fallback."],
             .monoSound (encode_int16 (apply_fade_edges normed (1 / 10)))) ∧
      create_sound gen (some 1) true =
        .ok ([], .monoSound (encode_int16 (apply_fade_edges normed (1 / 10)))) := by
  obtain ⟨normed, hn⟩ : ∃ ys, normalize gen = some ys := by
    cases gen with
    | nil => exact absurd rfl h
    | cons x t => exact normalize_cons_isSome x t
  refine ⟨normed, hn, ?_, ?_⟩
  · unfold create_sound
    rw [hn]
    rfl
  · unfold create_sound
    rw [hn]
    rfl

/-- Witness for C8 on the generator output `[0]`: the failed multi-channel
encode falls back to the mono re-encode of the shaped buffer. -/
theorem create_sound_mono_fallback_witness :
    create_sound [0] (some 2) false =
      .ok (["[AudioGen] Failed to create sound. Attempting emergency mono fallback."],
           .monoSound (encode_int16 (apply_fade_edges [0] (1 / 10)))) := by
  obtain ⟨normed, hn, h1, h2⟩ := create_sound_mono_fallback [0] (some 2) (by simp)
  have hnz : normed = [0] := by
    have hz : normalize [0] = some [0] := by simp [normalize, npMax]
    rw [hz] at hn
    exact (Option.some.inj hn).symm
  rw [hnz] at h1
  exact h1

/-- C1: the claim fails on the code — for every entry of the 8-profile set
`SOUND_PROFILES` (none of which carries a `"fallback"` key), a missing
source file sends `_load_sound` into `profile["fallback"]`, which raises
`KeyError("fallback")` past the boundary instead of returning a
synthesized sound. -/
theorem load_sound_profiles_keyerror :
    SOUND_PROFILES.map (fun p => (load_sound p false true (some 2) true).2) =
      List.replicate 8 (Except.error (PyErr.keyError "fallback")) := rfl

/-- C4: the claim's idempotence fails on the code — from a live state with
one looping channel, the first `on_close` succeeds (channel stopped, mixer
released, window destroyed), but invoking `on_close` again on the resulting
state faults: `Channel.stop` raises `pygame.error` because the mixer has
been quit. -/
theorem on_close_second_call_faults :
    on_close ⟨true, [("Birds", true)], true⟩ =
      Except.ok ⟨false, [("Birds", false)], false⟩ ∧
    on_close ⟨false, [("Birds", false)], false⟩ =
      Except.error (PyErr.pygameError "mixer not initialized") :=
  ⟨rfl, rfl⟩

end AmbientMixer
